import Mathlib

/-!
Verification of the Playlist Collection & Group-Filtered Export Engine.

The definitions below are a shallow embedding of the Python source:
`EnhancedIPTVManager` in `main.py` (the TUI variant in `tui.py` has
byte-identical logic for the parts treated here, noted per definition).
Machine-level details that come from the host language or the standard
library (dict = association list with unique keys, `time.time()` and
`urlparse(url).netloc` as environment-supplied values) are made explicit
as parameters.
-/

namespace IPTVManager

/-- A media entry (`IPTVChannel`): a name, a URL, and key/value attributes.
Modelled from the spec: the channel record of the `ipytv` library is not
under `src/`; §3 and the glossary describe an entry as a name, a URL and a
set of key/value attributes, which the source reads via
`channel.attributes.get(...)` (a dict, embedded as an association list with
unique keys). -/
structure Channel where
  name : String
  url : String
  attributes : List (String × String)
deriving DecidableEq

/-- A playlist (`M3UPlaylist`): playlist-level attributes plus the ordered
list of channels.  Modelled from the spec: the `ipytv` playlist class is not
under `src/`; §3/§6 describe it as an ordered list of entries with a
playlist-level attribute set; `M3UPlaylist()` builds the empty playlist,
`append_channels`/`get_channels` concatenate and read the entry list,
`length()` is the entry count and `add_attributes` copies an attribute
set in. -/
structure Playlist where
  attributes : List (String × String)
  channels : List Channel
deriving DecidableEq

/-- One element of `self.url_history` as built by `add_to_history`
(`main.py` lines 112-118, identically `tui.py` lines 119-125).  The
timestamp (`time.time()`) and derived domain (`urlparse(url).netloc`) are
environment-supplied, so they enter the embedding as arguments. -/
structure HistoryEntry where
  url : String
  timestamp : Nat
  success : Bool
  channel_count : Nat
  domain : String
deriving DecidableEq

/-- `add_to_history` (`main.py` 110-129, `tui.py` 117-130): drop every
existing entry with the same url, insert the new entry at the front, keep
only the first 50 entries.  The final `_save_url_history()` call only
persists the in-memory list and catches its own failures, so it does not
change the store. -/
def addToHistory (h : List HistoryEntry) (url : String) (success : Bool)
    (count : Nat) (now : Nat) (domain : String) : List HistoryEntry :=
  (⟨url, now, success, count, domain⟩ ::
    h.filter (fun e => e.url != url)).take 50

/-- Arguments of one `add_to_history` call, with the environment-supplied
timestamp and domain included. -/
structure RecordCall where
  url : String
  success : Bool
  count : Nat
  now : Nat
  domain : String
deriving DecidableEq

/-- Replay a sequence of `add_to_history` calls on a starting store. -/
def applyCalls (h : List HistoryEntry) : List RecordCall → List HistoryEntry
  | [] => h
  | c :: cs => applyCalls (addToHistory h c.url c.success c.count c.now c.domain) cs

/-- The History Store invariant of §3: at most 50 entries, and no two
entries share a location (url). -/
def validStore (h : List HistoryEntry) : Prop :=
  h.length ≤ 50 ∧ (h.map (fun e => e.url)).Nodup

theorem validStore_addToHistory {h : List HistoryEntry} (hv : validStore h)
    (url : String) (success : Bool) (count : Nat) (now : Nat) (domain : String) :
    validStore (addToHistory h url success count now domain) := by
  obtain ⟨-, hnd⟩ := hv
  constructor
  · simp [addToHistory, List.length_take]
  · have hsub : (h.filter (fun e => e.url != url)).Sublist h :=
      List.filter_sublist h
    have hnd' : ((h.filter (fun e => e.url != url)).map (fun e => e.url)).Nodup :=
      hnd.sublist (hsub.map _)
    have hnotmem : url ∉ (h.filter (fun e => e.url != url)).map (fun e => e.url) := by
      intro hmem
      obtain ⟨e, he, heq⟩ := List.mem_map.mp hmem
      have hne := List.of_mem_filter he
      rw [bne_iff_ne] at hne
      exact hne heq
    have hcons :
        (((⟨url, now, success, count, domain⟩ : HistoryEntry) ::
          h.filter (fun e => e.url != url)).map (fun e => e.url)).Nodup := by
      simpa [List.nodup_cons] using And.intro hnotmem hnd'
    rw [addToHistory, List.map_take]
    exact hcons.sublist (List.take_sublist _ _)

/-- C7: for every sequence of record calls starting from any valid store,
the History Store stays at ≤ 50 entries with pairwise-distinct locations
(after each call: every intermediate store is `applyCalls` of a prefix,
which this theorem also covers since it quantifies over all call lists). -/
theorem history_store_invariant (h : List HistoryEntry) (hv : validStore h)
    (calls : List RecordCall) : validStore (applyCalls h calls) := by
  induction calls generalizing h with
  | nil => exact hv
  | cons c cs ih =>
    exact ih _ (validStore_addToHistory hv c.url c.success c.count c.now c.domain)

/-- Witness for C7: the empty store is valid and stays valid across the
two-call sequence that records the same location twice. -/
theorem history_store_invariant_witness :
    validStore ([] : List HistoryEntry) ∧
      validStore (applyCalls []
        [⟨"http://a", true, 3, 10, "a"⟩, ⟨"http://a", false, 0, 11, "a"⟩]) := by
  constructor
  · exact ⟨by decide, List.nodup_nil⟩
  · exact history_store_invariant [] ⟨by decide, List.nodup_nil⟩
      [⟨"http://a", true, 3, 10, "a"⟩, ⟨"http://a", false, 0, 11, "a"⟩]

/-- C10: one `add_to_history` call leaves every entry with a different
location unchanged and in its original relative order: the result is
exactly the new entry followed by the first 49 survivors of filtering the
old store on a different url, and that filtered list is a sublist (same
elements, same order) of the old store. -/
theorem addToHistory_frame (h : List HistoryEntry) (url : String)
    (success : Bool) (count : Nat) (now : Nat) (domain : String) :
    addToHistory h url success count now domain =
      ⟨url, now, success, count, domain⟩ ::
        (h.filter (fun e => e.url != url)).take 49 ∧
      (h.filter (fun e => e.url != url)).Sublist h ∧
      ∀ e ∈ h.filter (fun e => e.url != url), e.url ≠ url := by
  refine ⟨?_, List.filter_sublist h, ?_⟩
  · rw [addToHistory, show (50 : Nat) = 49 + 1 from rfl, List.take_succ_cons]
  · intro e he
    have hne := List.of_mem_filter he
    rwa [bne_iff_ne] at hne

/-- Session state of the manager: the registry of named loaded playlists
(`self.loaded_playlists`, an insertion-ordered dict embedded as an
association list with unique keys), the current playlist pointer
(`self.current_playlist`, which holds a playlist object, not a name), and
the url history (`self.url_history`). -/
structure MState where
  loaded : List (String × Playlist)
  current : Option Playlist
  history : List HistoryEntry
deriving DecidableEq

/-- Dict assignment `self.loaded_playlists[name] = pl`: overwrite the value
of an existing key in place, else append the new binding at the end
(Python dicts preserve insertion order and keep the position of an
overwritten key). -/
def regInsert : List (String × Playlist) → String → Playlist → List (String × Playlist)
  | [], n, pl => [(n, pl)]
  | (k, v) :: rest, n, pl =>
    if k = n then (k, pl) :: rest else (k, v) :: regInsert rest n pl

/-- Dict deletion `del self.loaded_playlists[name]`. -/
def regRemove : List (String × Playlist) → String → List (String × Playlist)
  | [], _ => []
  | (k, v) :: rest, n => if k = n then rest else (k, v) :: regRemove rest n

theorem regInsert_lookup (reg : List (String × Playlist)) (n : String) (pl : Playlist) :
    (regInsert reg n pl).lookup n = some pl := by
  induction reg with
  | nil => simp [regInsert, List.lookup]
  | cons hd tl ih =>
    obtain ⟨k, v⟩ := hd
    by_cases h : k = n
    · simp [regInsert, h, List.lookup]
    · have hbk : (n == k) = false := by
        simp only [beq_eq_false_iff_ne, ne_eq]
        exact fun he => h he.symm
      simp only [regInsert, if_neg h, List.lookup, hbk]
      exact ih

/-- The playlist built by the merge loop of `merge_playlists` (`main.py`
921-925): walk the requested names in order, skip names not in the
registry, and concatenate the channel lists of the playlists found.  The
fresh `M3UPlaylist()` starts with no playlist-level attributes. -/
def mergedOf (st : MState) (names : List String) : Playlist :=
  ⟨[], ((names.filterMap (fun n => st.loaded.lookup n)).map Playlist.channels).flatten⟩

/-- `merge_playlists(playlist_names, merged_name)` (`main.py` 903-931).
Python's `if not playlist_names:` treats an empty name list like `None`:
it drops into interactive selection, which warns and returns unchanged
when no playlists are loaded, and otherwise uses the names the operator
picks (`_select_multiple_playlists`, `main.py` 933-982); those picks enter
the embedding as the `interactiveNames` argument, and a second empty check
returns unchanged.  With a non-empty name list the merge loop runs, the
result is stored under `mergedName` (overwriting) and becomes current.
`mergedName` is the supplied merged name, or the generated
`merged_<timestamp>` when the operator supplied none (`main.py` 915-916). -/
def mergePlaylists (st : MState) (names : List String) (mergedName : String)
    (interactiveNames : List String) : MState :=
  let names' := if names.isEmpty then
      (if st.loaded.isEmpty then [] else interactiveNames)
    else names
  if names'.isEmpty then st
  else
    { st with
      loaded := regInsert st.loaded mergedName (mergedOf st names'),
      current := some (mergedOf st names') }

/-- The remove action of `manage_loaded_playlists` (`main.py` 871-883):
`if removed_name in self.loaded_playlists: del self.loaded_playlists[removed_name]`.
Nothing else changes — in particular `self.current_playlist` is not
touched. -/
def removePlaylist (st : MState) (name : String) : MState :=
  if (st.loaded.lookup name).isSome then
    { st with loaded := regRemove st.loaded name }
  else st

/-- The invariant of §3 that C2 asserts: the current playlist, when
defined, is a value stored in the registry. -/
def currentConsistent (st : MState) : Prop :=
  ∀ pl, st.current = some pl → ∃ e ∈ st.loaded, e.2 = pl

/-- C2 (code evaluated at the failing input): a registry holding one
playlist `p` under name `"a"` with `p` current satisfies the invariant,
but after `remove "a"` the registry is empty while the current pointer
still holds `p` — a dangling reference, so the invariant is violated. -/
theorem remove_current_dangling :
    currentConsistent ⟨[("a", ⟨[], [⟨"c", "http://u", [("group-title", "g")]⟩]⟩)],
        some ⟨[], [⟨"c", "http://u", [("group-title", "g")]⟩]⟩, []⟩ ∧
      removePlaylist ⟨[("a", ⟨[], [⟨"c", "http://u", [("group-title", "g")]⟩]⟩)],
          some ⟨[], [⟨"c", "http://u", [("group-title", "g")]⟩]⟩, []⟩ "a" =
        ⟨[], some ⟨[], [⟨"c", "http://u", [("group-title", "g")]⟩]⟩, []⟩ ∧
      ¬ currentConsistent
          ⟨[], some ⟨[], [⟨"c", "http://u", [("group-title", "g")]⟩]⟩, []⟩ := by
  refine ⟨?_, by decide, ?_⟩
  · intro pl hpl
    refine ⟨("a", ⟨[], [⟨"c", "http://u", [("group-title", "g")]⟩]⟩),
      List.mem_singleton.mpr rfl, ?_⟩
    exact Option.some_inj.mp hpl
  · intro hcon
    obtain ⟨e, he, -⟩ :=
      hcon ⟨[], [⟨"c", "http://u", [("group-title", "g")]⟩]⟩ rfl
    exact absurd he (List.not_mem_nil e)

/-- C3 counterexample: `merge([], "m3")` on an empty registry leaves the
state unchanged (the interactive path warns and returns), so nothing is
registered under `"m3"` — contradicting the claim that an empty name
sequence yields an empty playlist registered under the supplied name. -/
theorem merge_empty_names_counterexample :
    (mergePlaylists ⟨[], none, []⟩ [] "m3" []).loaded.lookup "m3" = none := by
  decide

/-- C3 (amended): merge with a NON-empty sequence of names none of which is
in the registry yields the empty playlist, registered under the merged
name, and it becomes current.  (With an empty name sequence the code takes
the interactive-selection path instead and registers nothing.) -/
theorem merge_all_missing_registers_empty (st : MState) (names : List String)
    (mergedName : String) (it : List String) (hne : names ≠ [])
    (hmiss : ∀ n ∈ names, st.loaded.lookup n = none) :
    (mergePlaylists st names mergedName it).loaded.lookup mergedName =
        some ⟨[], []⟩ ∧
      (mergePlaylists st names mergedName it).current = some ⟨[], []⟩ := by
  have hnames : names.isEmpty = false := by
    cases names with
    | nil => exact absurd rfl hne
    | cons a l => rfl
  have hmerged : mergedOf st names = ⟨[], []⟩ := by
    rw [mergedOf, List.filterMap_eq_nil_iff.mpr hmiss]
    rfl
  have heq : mergePlaylists st names mergedName it =
      { st with
        loaded := regInsert st.loaded mergedName (mergedOf st names),
        current := some (mergedOf st names) } := by
    rw [mergePlaylists]
    simp only [hnames, Bool.false_eq_true, if_false]
  rw [heq, hmerged]
  exact ⟨regInsert_lookup st.loaded mergedName ⟨[], []⟩, rfl⟩

/-- Witness for C3: merging the two absent names `"x"`, `"y"` on a
one-playlist registry registers the empty playlist under `"m"` and makes
it current. -/
theorem merge_all_missing_witness :
    (["x", "y"] : List String) ≠ [] ∧
      (mergePlaylists ⟨[("a", ⟨[], []⟩)], none, []⟩ ["x", "y"] "m" []).loaded.lookup "m" =
          some ⟨[], []⟩ ∧
        (mergePlaylists ⟨[("a", ⟨[], []⟩)], none, []⟩ ["x", "y"] "m" []).current =
          some ⟨[], []⟩ :=
  ⟨by decide,
    merge_all_missing_registers_empty ⟨[("a", ⟨[], []⟩)], none, []⟩ ["x", "y"] "m" []
      (by decide) (by decide)⟩

/-- C8 counterexample: with an empty name sequence the merge request drops
into interactive selection (here: empty registry, so it warns and returns
unchanged) and registers nothing under the merged name, contradicting the
claim for EVERY ordered sequence of names. -/
theorem merge_empty_sequence_counterexample :
    (mergePlaylists ⟨[], none, []⟩ [] "m8" ["x"]).loaded.lookup "m8" = none := by
  decide

/-- C8 (amended): for every NON-empty ordered sequence of names, merge
concatenates the channel lists of the named playlists found in the
registry in the given order (absent names skipped without error), stores
the result under the merged name — overwriting any existing binding, as
the lookup returns the fresh merged playlist — makes it current, and its
entry count is the sum of the entry counts of the playlists found. -/
theorem merge_concatenates (st : MState) (names : List String)
    (mergedName : String) (it : List String) (hne : names ≠ []) :
    mergePlaylists st names mergedName it =
        { st with
          loaded := regInsert st.loaded mergedName (mergedOf st names),
          current := some (mergedOf st names) } ∧
      (mergePlaylists st names mergedName it).loaded.lookup mergedName =
        some (mergedOf st names) ∧
      (mergedOf st names).channels =
        ((names.filterMap (fun n => st.loaded.lookup n)).map Playlist.channels).flatten ∧
      (mergedOf st names).channels.length =
        ((names.filterMap (fun n => st.loaded.lookup n)).map
          (fun pl => pl.channels.length)).sum := by
  have hnames : names.isEmpty = false := by
    cases names with
    | nil => exact absurd rfl hne
    | cons a l => rfl
  have heq : mergePlaylists st names mergedName it =
      { st with
        loaded := regInsert st.loaded mergedName (mergedOf st names),
        current := some (mergedOf st names) } := by
    rw [mergePlaylists]
    simp only [hnames, Bool.false_eq_true, if_false]
  refine ⟨heq, ?_, rfl, ?_⟩
  · rw [heq]
    exact regInsert_lookup st.loaded mergedName (mergedOf st names)
  · rw [mergedOf, List.length_flatten, List.map_map]
    rfl

/-- Witness for C8: merging `["b", "zz", "a"]` over a registry holding
`"a"` (one channel) and `"b"` (two channels) concatenates b's channels
then a's, registers the result under `"b"` (overwriting it) and reports
3 = 2 + 1 channels. -/
theorem merge_concatenates_witness :
    (["b", "zz", "a"] : List String) ≠ [] ∧
      (mergePlaylists
          ⟨[("a", ⟨[], [⟨"a1", "u1", []⟩]⟩),
            ("b", ⟨[], [⟨"b1", "u2", []⟩, ⟨"b2", "u3", []⟩]⟩)], none, []⟩
          ["b", "zz", "a"] "b" []).loaded.lookup "b" =
        some (mergedOf
          ⟨[("a", ⟨[], [⟨"a1", "u1", []⟩]⟩),
            ("b", ⟨[], [⟨"b1", "u2", []⟩, ⟨"b2", "u3", []⟩]⟩)], none, []⟩
          ["b", "zz", "a"]) := by
  refine ⟨by decide, ?_⟩
  exact (merge_concatenates
    ⟨[("a", ⟨[], [⟨"a1", "u1", []⟩]⟩),
      ("b", ⟨[], [⟨"b1", "u2", []⟩, ⟨"b2", "u3", []⟩]⟩)], none, []⟩
    ["b", "zz", "a"] "b" [] (by decide)).2.1

/-- Failure kinds of the load path: `URLException`, `MalformedPlaylistException`
and the catch-all `except Exception` branch of `load_playlist_from_url`
(`main.py` 179-190).  Modelled from the spec: the fetch collaborator
`playlist.loadu` / `M3UPlaylistDoctor.sanitize` lives in the `ipytv`
library, not under `src/`; §6 specifies it as `fetch_and_parse(location)`
raising a distinguishable location error vs malformed-data error. -/
inductive LoadFailure
  | locationError
  | malformedData
  | unexpected
deriving DecidableEq

/-- `load_playlist_from_url` (`main.py` 131-190, same shape in `tui.py`
132-158): the fetched-and-sanitized result (or its failure) enters as
`fetched`; `storeName` is the supplied or generated playlist name, and
`now`/`domain` are the environment values for the history entry.  On
success the playlist becomes current, is stored in the registry, and a
success entry is recorded; on any failure only a failure entry is
recorded and `False` is returned. -/
def loadPlaylistFromUrl (st : MState) (url : String)
    (fetched : Except LoadFailure Playlist) (storeName : String)
    (now : Nat) (domain : String) : MState × Bool :=
  match fetched with
  | .ok pl =>
    ({ loaded := regInsert st.loaded storeName pl,
       current := some pl,
       history := addToHistory st.history url true pl.channels.length now domain },
      true)
  | .error _ =>
    ({ st with history := addToHistory st.history url false 0 now domain }, false)

/-- C9: every failed load attempt returns `False` (a controlled outcome, no
fault escapes), leaves the current playlist and the registry exactly as
they were, and records a failure entry for that location at the front of
the history. -/
theorem failed_load_records_failure (st : MState) (url : String)
    (e : LoadFailure) (storeName : String) (now : Nat) (domain : String) :
    (loadPlaylistFromUrl st url (.error e) storeName now domain).2 = false ∧
      (loadPlaylistFromUrl st url (.error e) storeName now domain).1.current =
        st.current ∧
      (loadPlaylistFromUrl st url (.error e) storeName now domain).1.loaded =
        st.loaded ∧
      (loadPlaylistFromUrl st url (.error e) storeName now domain).1.history.head? =
        some ⟨url, now, false, 0, domain⟩ := by
  refine ⟨rfl, rfl, rfl, ?_⟩
  rw [loadPlaylistFromUrl]
  rw [addToHistory, show (50 : Nat) = 49 + 1 from rfl, List.take_succ_cons]
  rfl

/-- The group label the filter loop reads for a channel:
`channel.attributes.get('group-title', '')` (`main.py` 637, `tui.py` 582).
A channel missing the attribute (or holding the empty string) yields `""`,
the value standing for the "no group" sentinel bucket of §3/§4.3. -/
def channelGroup (ch : Channel) : String :=
  ((ch.attributes.lookup "group-title").getD "")

/-- The filtering loop of `export_with_group_filter` (`main.py` 636-642)
and `_perform_export` (`tui.py` 581-587): keep a channel iff its group
label is in the selected set (`exclude = false`) or not in it
(`exclude = true`), in source order. -/
def filterChannels (chs : List Channel) (selected : List String)
    (exclude : Bool) : List Channel :=
  chs.filter (fun ch =>
    if exclude then !(decide (channelGroup ch ∈ selected))
    else decide (channelGroup ch ∈ selected))

/-- The exported playlist: a fresh `M3UPlaylist()` that copies the source's
playlist-level attributes (`filtered_pl.add_attributes(...)`, `main.py`
632-633) and receives the filtered channels. -/
def exportFiltered (src : Playlist) (selected : List String)
    (exclude : Bool) : Playlist :=
  ⟨src.attributes, filterChannels src.channels selected exclude⟩

theorem filter_length_partition {α : Type} (p : α → Bool) (l : List α) :
    (l.filter p).length + (l.filter (fun a => !(p a))).length = l.length := by
  induction l with
  | nil => rfl
  | cons a t ih =>
    by_cases h : p a <;> simp [List.filter_cons, h, ← ih] <;> omega

theorem count_filter_neg {α : Type} [DecidableEq α] {p : α → Bool} {l : List α}
    {a : α} (h : p a = false) : (l.filter p).count a = 0 :=
  List.count_eq_zero.mpr (fun hmem => by
    have hpa := (List.mem_filter.mp hmem).2
    rw [h] at hpa
    exact Bool.false_ne_true hpa)

theorem filter_count_partition {α : Type} [DecidableEq α] (p : α → Bool)
    (l : List α) (a : α) :
    (l.filter p).count a + (l.filter (fun x => !(p x))).count a = l.count a := by
  by_cases h : p a
  · rw [List.count_filter h, count_filter_neg (by simp [h]), Nat.add_zero]
  · rw [count_filter_neg (by simpa using h),
      List.count_filter (by simpa using h), Nat.zero_add]

/-- C4: for every source playlist, selected-label set and the include /
exclude pair of filter runs, the two results partition the source's
channels: counts sum to the source length (entry-for-entry, also as exact
multiplicities), every source entry lands in exactly one result, and both
results are sublists of the source, i.e. keep source order. -/
theorem filter_partition (src : Playlist) (selected : List String) :
    ((exportFiltered src selected false).channels.length +
        (exportFiltered src selected true).channels.length =
      src.channels.length) ∧
      (∀ ch, (exportFiltered src selected false).channels.count ch +
          (exportFiltered src selected true).channels.count ch =
        src.channels.count ch) ∧
      (∀ ch ∈ src.channels,
        (ch ∈ (exportFiltered src selected false).channels ∧
            ch ∉ (exportFiltered src selected true).channels) ∨
          (ch ∈ (exportFiltered src selected true).channels ∧
            ch ∉ (exportFiltered src selected false).channels)) ∧
      (exportFiltered src selected false).channels.Sublist src.channels ∧
      (exportFiltered src selected true).channels.Sublist src.channels := by
  refine ⟨?_, ?_, ?_, List.filter_sublist _, List.filter_sublist _⟩
  · exact filter_length_partition (fun ch => decide (channelGroup ch ∈ selected))
      src.channels
  · intro ch
    exact filter_count_partition (fun ch => decide (channelGroup ch ∈ selected))
      src.channels ch
  · intro ch hch
    by_cases h : channelGroup ch ∈ selected
    · exact Or.inl ⟨List.mem_filter.mpr ⟨hch, by simp [h]⟩,
        fun hmem => by simpa [h] using (List.mem_filter.mp hmem).2⟩
    · exact Or.inr ⟨List.mem_filter.mpr ⟨hch, by simp [h]⟩,
        fun hmem => by simpa [h] using (List.mem_filter.mp hmem).2⟩

/-- Every group label occurring in a channel list, as the filter loop
computes labels; entries with no group label contribute the sentinel
value `""`. -/
def fullLabelList (chs : List Channel) : List String :=
  (chs.map channelGroup).dedup

/-- C5: filtering with an empty selected set and `exclude = false` keeps
nothing, and filtering with the playlist's full label set (which contains
the sentinel `""` exactly when some entry has no group label) and
`exclude = true` also keeps nothing. -/
theorem filter_empty_and_full (src : Playlist) :
    (exportFiltered src [] false).channels = [] ∧
      (exportFiltered src (fullLabelList src.channels) true).channels = [] := by
  constructor
  · rw [exportFiltered, filterChannels]
    exact List.filter_eq_nil_iff.mpr (fun ch _ => by simp)
  · rw [exportFiltered, filterChannels]
    refine List.filter_eq_nil_iff.mpr (fun ch hch => ?_)
    have hmem : channelGroup ch ∈ fullLabelList src.channels := by
      rw [fullLabelList, List.mem_dedup]
      exact List.mem_map.mpr ⟨ch, hch, rfl⟩
    simp [hmem]

/-- ASCII decimal digit test, as Python's `int()` accepts. -/
def isAsciiDigit (c : Char) : Bool :=
  '0' ≤ c && c ≤ '9'

/-- Numeric value of an ASCII digit. -/
def digitVal (c : Char) : Nat :=
  c.toNat - 48

/-- Whitespace as Python's `str.strip()` and `int()` remove it (the ASCII
whitespace characters; Python additionally strips some rare Unicode
spaces, which no selection expression contains). -/
def isPySpace (c : Char) : Bool :=
  c = ' ' || c = '\t' || c = '\n' || c = '\r' ||
    c = (Char.ofNat 11) || c = (Char.ofNat 12)

/-- Python's `str.strip()` on a character list: drop whitespace from both
ends. -/
def stripChars (cs : List Char) : List Char :=
  ((cs.dropWhile isPySpace).reverse.dropWhile isPySpace).reverse

/-- Python's `str.split(sep)` for a one-character separator: split on every
occurrence, keeping empty pieces (`"".split(',') == ['']`). -/
def splitCharsOn (sep : Char) : List Char → List (List Char)
  | [] => [[]]
  | c :: rest =>
    if c = sep then [] :: splitCharsOn sep rest
    else
      match splitCharsOn sep rest with
      | h :: t => (c :: h) :: t
      | [] => [[c]]

/-- Digit tail of a Python integer literal after its first digit: further
digits, with single underscores allowed between digits (`int("1_0")` is
10, while a leading, trailing or doubled underscore raises `ValueError`). -/
def pyDigits : List Char → Nat → Option Nat
  | [], acc => some acc
  | ['_'], _ => none
  | '_' :: c :: rest, acc =>
    if isAsciiDigit c then pyDigits rest (acc * 10 + digitVal c) else none
  | c :: rest, acc =>
    if isAsciiDigit c then pyDigits rest (acc * 10 + digitVal c) else none

/-- Python's `int(s)` on a character list: surrounding whitespace
stripped, an optional sign, then a non-empty digit sequence; anything else
raises `ValueError`, embedded as `none`. -/
def pyIntChars (s : List Char) : Option Int :=
  match stripChars s with
  | '+' :: c :: rest =>
    if isAsciiDigit c then (pyDigits rest (digitVal c)).map Int.ofNat else none
  | '-' :: c :: rest =>
    if isAsciiDigit c then (pyDigits rest (digitVal c)).map (fun n => -(n : Int))
    else none
  | c :: rest =>
    if isAsciiDigit c then (pyDigits rest (digitVal c)).map Int.ofNat else none
  | [] => none

/-- Python's `int(s)` on a string. -/
def pyInt (s : String) : Option Int :=
  pyIntChars s.toList

/-- One comma-separated token of a selection expression, resolved to the
labels it denotes (`main.py` 742-754, identically 802-814): the token is
stripped; if it holds a `-` it must split into exactly two integers and
contributes the candidate labels at the 1-based positions of the inclusive
range (out-of-range positions silently skipped, an empty range contributes
nothing); otherwise it must be one integer and contributes that label when
in range.  `none` is Python's `ValueError` (malformed token). -/
def tokenLabels (groupNames : List String) (part : String) : Option (List String) :=
  let p := stripChars part.toList
  if p.contains '-' then
    match splitCharsOn '-' p with
    | [s, e] =>
      match pyIntChars s, pyIntChars e with
      | some si, some ei =>
        some (((List.range groupNames.length).filter
            (fun (k : Nat) => decide (si - 1 ≤ (k : Int)) &&
              decide ((k : Int) ≤ ei - 1))).map
          (fun k => groupNames.getD k ""))
      | _, _ => none
    | _ => none
  else
    match pyIntChars p with
    | some i =>
      if 0 ≤ i - 1 && i - 1 < (groupNames.length : Int) then
        some [groupNames.getD (i - 1).toNat ""]
      else some []
    | none => none

/-- The tokens of a selection expression: `choice.split(',')`. -/
def expressionParts (choice : String) : List String :=
  (splitCharsOn ',' choice.toList).map (fun cs => ⟨cs⟩)

/-- Accumulation of one token into the `new_selections` set of
`_enhanced_group_selection` (`main.py` 740-754): the set is a Python
`set`, so duplicate labels collapse; a malformed token raises
`ValueError`, which aborts the whole expression (`none` absorbs). -/
def parseStep (groupNames : List String) (acc : Option (Finset String))
    (part : String) : Option (Finset String) :=
  match acc, tokenLabels groupNames part with
  | some s, some ls => some (s ∪ ls.toFinset)
  | _, _ => none

/-- The parsed token set of a whole expression: fold `parseStep` over the
comma-separated tokens, starting from the empty set. -/
def parseParts (groupNames : List String) (parts : List String) :
    Option (Finset String) :=
  parts.foldl (parseStep groupNames) (some ∅)

/-- Toggling every member of the parsed token set once (`main.py` 756-761:
membership in `selected_groups` is flipped per distinct label) is the
symmetric difference with the starting selection.  The Bool is the error
flag: `true` when the expression was malformed, in which case the
selection is returned untouched (`except ValueError`, `main.py` 765). -/
def applyParts (groupNames : List String) (sel : Finset String)
    (parts : List String) : Finset String × Bool :=
  match parseParts groupNames parts with
  | none => (sel, true)
  | some n => ((sel \ n) ∪ (n \ sel), false)

/-- One round of the selection loop of `_enhanced_group_selection`
(`main.py` 725-766) on the already stripped and lowercased operator input:
`done` keeps the selection (and leaves the loop), `all` replaces it with
every candidate, `none` clears it, and anything else is parsed as a
comma-separated token expression and applied by toggling. -/
def groupSelectionStep (groupNames : List String) (sel : Finset String)
    (choice : String) : Finset String × Bool :=
  if choice = "done" then (sel, false)
  else if choice = "all" then (groupNames.toFinset, false)
  else if choice = "none" then ((∅ : Finset String), false)
  else applyParts groupNames sel (expressionParts choice)

theorem parseStep_none (g : List String) (p : String) :
    parseStep g none p = none := by
  cases h : tokenLabels g p <;> simp [parseStep, h]

theorem foldl_parseStep_none (g : List String) (parts : List String) :
    parts.foldl (parseStep g) none = none := by
  induction parts with
  | nil => rfl
  | cons a l ih =>
    rw [List.foldl_cons, parseStep_none]
    exact ih

theorem foldl_parseStep_bad (g : List String) :
    ∀ (parts : List String) (acc : Option (Finset String)),
      (∃ p ∈ parts, tokenLabels g p = none) →
      parts.foldl (parseStep g) acc = none := by
  intro parts
  induction parts with
  | nil =>
    intro acc h
    obtain ⟨p, hp, -⟩ := h
    exact absurd hp (List.not_mem_nil p)
  | cons a l ih =>
    intro acc h
    rw [List.foldl_cons]
    by_cases ha : tokenLabels g a = none
    · have hstep : parseStep g acc a = none := by
        cases acc <;> simp [parseStep, ha]
      rw [hstep]
      exact foldl_parseStep_none g l
    · obtain ⟨p, hp, hbad⟩ := h
      rcases List.mem_cons.mp hp with rfl | hpl
      · exact absurd hbad ha
      · exact ih _ ⟨p, hpl, hbad⟩

theorem parseParts_eq_none_of_bad (g : List String) (parts : List String)
    (h : ∃ p ∈ parts, tokenLabels g p = none) :
    parseParts g parts = none :=
  foldl_parseStep_bad g parts (some ∅) h

/-- C6: any expression reaching the token parser (not one of the keywords
`done` / `all` / `none`) that contains at least one malformed token makes
the whole expression fail: the error flag is raised and the selection is
returned exactly as it was — no token, well-formed or not, is applied. -/
theorem parse_error_leaves_selection (groupNames : List String)
    (sel : Finset String) (choice : String) (hd : choice ≠ "done")
    (ha : choice ≠ "all") (hn : choice ≠ "none")
    (hbad : ∃ p ∈ expressionParts choice, tokenLabels groupNames p = none) :
    groupSelectionStep groupNames sel choice = (sel, true) := by
  rw [groupSelectionStep, if_neg hd, if_neg ha, if_neg hn, applyParts,
    parseParts_eq_none_of_bad groupNames (expressionParts choice) hbad]

/-- Witness for C6: on candidates `["a"]` with `"a"` selected, the
expression `"1,x"` — whose first token is well-formed and whose second is
malformed — reports a parse error and leaves the selection `{"a"}`
untouched. -/
theorem parse_error_leaves_selection_witness :
    (("1,x" : String) ≠ "done" ∧ ("1,x" : String) ≠ "all" ∧
        ("1,x" : String) ≠ "none" ∧
        (∃ p ∈ expressionParts "1,x", tokenLabels ["a"] p = none)) ∧
      groupSelectionStep ["a"] {"a"} "1,x" = ({"a"}, true) :=
  ⟨⟨by decide, by decide, by decide, ⟨"x", by decide, by decide⟩⟩,
    parse_error_leaves_selection ["a"] {"a"} "1,x" (by decide) (by decide)
      (by decide) ⟨"x", by decide, by decide⟩⟩

/-- C1 counterexample: on the candidate list `["a"]` with empty starting
selection, the expression `"1,1"` — the token for index 1 twice — yields
the selection `{"a"}`, not the starting selection: duplicate tokens do
not cancel out, so the claimed no-op property fails. -/
theorem duplicate_token_counterexample :
    groupSelectionStep ["a"] ∅ "1,1" = ({"a"}, false) ∧
      ({"a"} : Finset String) ≠ (∅ : Finset String) := by
  decide

/-- C1 (amended): duplicate tokens inside one expression collapse to a
single occurrence — the `new_selections` accumulator is a set — so an
expression listing the same token twice behaves exactly like the
expression listing it once: the resolved label is toggled once, not left
unchanged. -/
theorem duplicate_token_collapses (groupNames : List String)
    (sel : Finset String) (t : String) :
    applyParts groupNames sel [t, t] = applyParts groupNames sel [t] := by
  rw [applyParts, applyParts, parseParts, parseParts]
  cases h : tokenLabels groupNames t with
  | none => simp [List.foldl, parseStep, h]
  | some ls =>
    simp [List.foldl, parseStep, h, Finset.union_assoc, Finset.union_self]

end IPTVManager
